import Mathlib

/-!
Verification of the preprocessing pipeline in
`src/feature_pipeline/preprocess.py` (Housing_Regression).

The development embeds the module shallowly:

* Strings are `List Char`; `normCore` embeds the body of `normalize_city`
  on a present (non-NA) string: `str(s).strip().lower()`, then
  `re.sub(r"[–—-]", "-", s)`, then `re.sub(r"\s+", " ", s)`.  The ASCII
  fragment of `str.lower` is modelled by a lookup table; Python's `\s`
  and `strip` whitespace classes are modelled by the six ASCII
  whitespace characters.
* DataFrames are `Frame`: a list of column names plus rows given as
  association lists from column name to cell value (`Val` is a string,
  a rational number standing for a numeric cell, or the missing value
  NaN).  Numeric cells are exact rationals: the pipeline never performs
  float arithmetic, it only copies and compares numbers.
* The fallible file layer of `preprocess_split` / `run_preprocess` is
  embedded with `Except`: `pd.read_csv` raising on a missing file
  becomes an `Except.error`, and the plain `for` loop of
  `run_preprocess` propagates it.
-/

/-- Whitespace test matching Python's `str.strip` / `re` `\s` class on
ASCII: space, tab, newline, carriage return, vertical tab, form feed. -/
def isPySpace (c : Char) : Bool :=
  c == ' ' || c == '\t' || c == '\n' || c == '\r' || c == '\x0b' || c == '\x0c'

/-- ASCII uppercase/lowercase letter pairs, the table behind `str.lower`
restricted to ASCII. -/
def upperLowerTable : List (Char × Char) :=
  [('A', 'a'), ('B', 'b'), ('C', 'c'), ('D', 'd'), ('E', 'e'), ('F', 'f'),
   ('G', 'g'), ('H', 'h'), ('I', 'i'), ('J', 'j'), ('K', 'k'), ('L', 'l'),
   ('M', 'm'), ('N', 'n'), ('O', 'o'), ('P', 'p'), ('Q', 'q'), ('R', 'r'),
   ('S', 's'), ('T', 't'), ('U', 'u'), ('V', 'v'), ('W', 'w'), ('X', 'x'),
   ('Y', 'y'), ('Z', 'z')]

/-- One character of `str.lower` (ASCII fragment): an uppercase letter
maps to its lowercase partner, everything else is unchanged. -/
def lowerChar (c : Char) : Char :=
  ((upperLowerTable.find? (fun p => decide (p.1 = c))).map Prod.snd).getD c

/-- The character class `[–—-]` of the dash-unification substitution:
en dash, em dash, hyphen. -/
def isDash (c : Char) : Bool :=
  c == '–' || c == '—' || c == '-'

/-- One character of `re.sub(r"[–—-]", "-", s)`. -/
def unifyDash (c : Char) : Char :=
  if isDash c then '-' else c

/-- Python `str.strip`: remove trailing whitespace (via reverse), then
leading whitespace. -/
def pyStrip (l : List Char) : List Char :=
  List.dropWhile isPySpace ((List.dropWhile isPySpace l.reverse).reverse)

/-- Embeds `re.sub(r"\s+", " ", s)`: every maximal run of whitespace is
replaced by a single space.  The single space is emitted when the run
ends (next character not whitespace, or end of string), which yields the
same string as the substitution. -/
def collapseWs : List Char → List Char
  | [] => []
  | [c] => if isPySpace c then [' '] else [c]
  | c :: d :: rest =>
    if isPySpace c then
      if isPySpace d then collapseWs (d :: rest)
      else ' ' :: collapseWs (d :: rest)
    else c :: collapseWs (d :: rest)

/-- Body of `normalize_city` on a present string:
`s.strip().lower()`, unify dashes, collapse whitespace runs. -/
def normCore (l : List Char) : List Char :=
  collapseWs (((pyStrip l).map lowerChar).map unifyDash)

/-- The function `normalize_city`: `pd.isna(s)` (here `none`) is passed
through unchanged, otherwise the string is normalized. -/
def normalize_city : Option (List Char) → Option (List Char)
  | none => none
  | some s => some (normCore s)

/-- No two adjacent characters are both whitespace. -/
def noAdjWs : List Char → Bool
  | [] => true
  | [_] => true
  | a :: b :: r => !(isPySpace a && isPySpace b) && noAdjWs (b :: r)

/-- The output shape promised by the specification for normalized city
strings: lowercase, every dash variant is the plain hyphen, every
whitespace character is a single space with no two adjacent, and no
leading or trailing whitespace. -/
def normalizedShape (m : List Char) : Bool :=
  m.all (fun c =>
      lowerChar c == c && (!(isDash c) || c == '-') && (!(isPySpace c) || c == ' '))
    && noAdjWs m
    && (m.head?.all fun c => !(isPySpace c))
    && (m.getLast?.all fun c => !(isPySpace c))

/-- Single rewrites generating "differs only in whitespace run-length,
dash character, or letter case": replace one dash variant by another,
replace a (non-whitespace) character by one with the same lowercase
image, or duplicate one whitespace character (which, closed under
equivalence, changes the length of a whitespace run arbitrarily). -/
inductive CityDiffStep : List Char → List Char → Prop
  | dash (u v : List Char) (c d : Char) (hc : isDash c = true) (hd : isDash d = true) :
      CityDiffStep (u ++ c :: v) (u ++ d :: v)
  | caseChange (u v : List Char) (c d : Char) (hc : isPySpace c = false)
      (hd : isPySpace d = false) (h : lowerChar c = lowerChar d) :
      CityDiffStep (u ++ c :: v) (u ++ d :: v)
  | wsRun (u v : List Char) (c : Char) (hc : isPySpace c = true) :
      CityDiffStep (u ++ c :: v) (u ++ c :: c :: v)

/-- The manual alias table `CITY_MAPPING` from the source. -/
def CITY_MAPPING : List (List Char × List Char) :=
  [(("las vegas-henderson-paradise").data, ("las vegas-henderson-north las vegas").data),
   (("denver-aurora-lakewood").data, ("denver-aurora-centennial").data),
   (("houston-the woodlands-sugar land").data, ("houston-pasadena-the woodlands").data),
   (("austin-round rock-georgetown").data, ("austin-round rock-san marcos").data),
   (("miami-fort lauderdale-pompano beach").data, ("miami-fort lauderdale-west palm beach").data),
   (("san francisco-oakland-berkeley").data, ("san francisco-oakland-fremont").data),
   (("dc_metro").data, ("washington-arlington-alexandria").data),
   (("atlanta-sandy springs-alpharetta").data, ("atlanta-sandy springs-roswell").data)]

/-- The dict comprehension
`{normalize_city(k): normalize_city(v) for k, v in CITY_MAPPING.items()}`. -/
def norm_mapping : List (List Char × List Char) :=
  CITY_MAPPING.map (fun p => (normCore p.1, normCore p.2))

/-- One string through `Series.replace(norm_mapping)`: an exact match of
a key is rewritten to its value, anything else passes through. -/
def applyAlias (s : List Char) : List Char :=
  match norm_mapping.find? (fun p => decide (p.1 = s)) with
  | some p => p.2
  | none => s

/-- The combined normalize-then-alias step that `clean_and_merge`
applies to each city string. -/
def normAndAlias (s : List Char) : List Char :=
  applyAlias (normCore s)

/-- A cell of a DataFrame: missing (NaN), a string, or a number.  The
pipeline only copies and compares numbers, so exact rationals model the
floats faithfully for everything proved here. -/
inductive Val where
  | na : Val
  | str : List Char → Val
  | num : ℚ → Val
deriving DecidableEq

/-- Column names. -/
abbrev CName := List Char

/-- A row: association list from column name to cell value. -/
abbrev Row := List (CName × Val)

/-- Value of a row at a column. -/
def rowGet (r : Row) (c : CName) : Option Val :=
  (r.find? (fun p => decide (p.1 = c))).map Prod.snd

/-- Rewrite the cell of one column of a row through `g`. -/
def rowModify (r : Row) (c : CName) (g : Val → Val) : Row :=
  r.map (fun p => if p.1 = c then (p.1, g p.2) else p)

/-- A DataFrame: ordered column names and rows. -/
structure Frame where
  cols : List CName
  rows : List Row
deriving DecidableEq

/-- Column assignment `df[c] = df[c].apply(g)` / `df[c].replace(...)`:
rewrite the cell of column `c` in every row. -/
def mapCol (df : Frame) (c : CName) (g : Val → Val) : Frame :=
  ⟨df.cols, df.rows.map (fun r => rowModify r c g)⟩

def cityFullC : CName := ("city_full").data
def latC : CName := ("lat").data
def lngC : CName := ("lng").data
def metroFullC : CName := ("metro_full").data
def dateC : CName := ("date").data
def yearC : CName := ("year").data
def mlpC : CName := ("median_list_price").data

/-- `normalize_city` lifted over cell values, as `Series.apply` does:
`pd.isna` values pass through unchanged, strings are normalized.  In
this pipeline the city columns hold strings or missing values; a
numeric cell (which `str()` would first stringify) does not occur and
is left unchanged here. -/
def normalize_city_val : Val → Val
  | Val.na => Val.na
  | Val.str s => Val.str (normCore s)
  | Val.num q => Val.num q

/-- `Series.replace(norm_mapping)` on one cell: exact string matches of
a key are rewritten, everything else (including NaN) passes through. -/
def replaceVal : Val → Val
  | Val.str s => Val.str (applyAlias s)
  | v => v

/-- The statement `df["city_full"] = df["city_full"].apply(normalize_city)`. -/
def normalizeCityF (df : Frame) : Frame :=
  mapCol df cityFullC normalize_city_val

/-- The statement `df["city_full"] = df["city_full"].replace(norm_mapping)`. -/
def applyMappingF (df : Frame) : Frame :=
  mapCol df cityFullC replaceVal

/-- The `canonical_coords` table from the source (name, (lat, lng)).
Each decimal float literal `d` of the source is the exact rational
`mkRat n 10000` with `n` its digits: the pipeline never computes with
these numbers, it only copies them. -/
def canonical_coords : List (List Char × ℚ × ℚ) :=
  [(("Atlanta-Sandy Springs-Roswell").data, mkRat 337490 10000, mkRat (-843880) 10000),
   (("Pittsburgh").data, mkRat 404406 10000, mkRat (-799959) 10000),
   (("Boston-Cambridge-Newton").data, mkRat 423601 10000, mkRat (-710589) 10000),
   (("Tampa-St. Petersburg-Clearwater").data, mkRat 279506 10000, mkRat (-824572) 10000),
   (("Baltimore-Columbia-Towson").data, mkRat 392904 10000, mkRat (-766122) 10000),
   (("Portland-Vancouver-Hillsboro").data, mkRat 455152 10000, mkRat (-1226784) 10000),
   (("Philadelphia-Camden-Wilmington").data, mkRat 399526 10000, mkRat (-751652) 10000),
   (("New York-Newark-Jersey City").data, mkRat 407128 10000, mkRat (-740060) 10000),
   (("Chicago-Naperville-Elgin").data, mkRat 418781 10000, mkRat (-876298) 10000),
   (("Orlando-Kissimmee-Sanford").data, mkRat 285383 10000, mkRat (-813792) 10000),
   (("Seattle-Tacoma-Bellevue").data, mkRat 476062 10000, mkRat (-1223321) 10000),
   (("San Francisco-Oakland-Fremont").data, mkRat 377749 10000, mkRat (-1224194) 10000),
   (("San Diego-Chula Vista-Carlsbad").data, mkRat 327157 10000, mkRat (-1171611) 10000),
   (("Austin-Round Rock-San Marcos").data, mkRat 302672 10000, mkRat (-977431) 10000),
   (("St. Louis").data, mkRat 386270 10000, mkRat (-901994) 10000),
   (("Sacramento-Roseville-Folsom").data, mkRat 385816 10000, mkRat (-1214944) 10000),
   (("Phoenix-Mesa-Chandler").data, mkRat 334484 10000, mkRat (-1120740) 10000),
   (("Riverside-San Bernardino-Ontario").data, mkRat 340522 10000, mkRat (-1172898) 10000),
   (("San Antonio-New Braunfels").data, mkRat 294241 10000, mkRat (-984936) 10000),
   (("Detroit-Warren-Dearborn").data, mkRat 423314 10000, mkRat (-830458) 10000),
   (("Cincinnati").data, mkRat 391031 10000, mkRat (-845120) 10000),
   (("Houston-Pasadena-The Woodlands").data, mkRat 297604 10000, mkRat (-953698) 10000),
   (("Charlotte-Concord-Gastonia").data, mkRat 352271 10000, mkRat (-808431) 10000),
   (("Denver-Aurora-Centennial").data, mkRat 397392 10000, mkRat (-1049903) 10000),
   (("Los Angeles-Long Beach-Anaheim").data, mkRat 340522 10000, mkRat (-1182437) 10000),
   (("Washington-Arlington-Alexandria").data, mkRat 389072 10000, mkRat (-770369) 10000),
   (("Dallas-Fort Worth-Arlington").data, mkRat 327767 10000, mkRat (-967970) 10000),
   (("Minneapolis-St. Paul-Bloomington").data, mkRat 449778 10000, mkRat (-932650) 10000),
   (("Las Vegas-Henderson-North Las Vegas").data, mkRat 361699 10000, mkRat (-1151398) 10000),
   (("Miami-Fort Lauderdale-West Palm Beach").data, mkRat 257617 10000, mkRat (-801918) 10000)]

/-- The module-level `metros` DataFrame built from `canonical_coords`. -/
def metros : Frame :=
  ⟨[metroFullC, latC, lngC],
   canonical_coords.map (fun p =>
     [(metroFullC, Val.str p.1), (latC, Val.num p.2.1), (lngC, Val.num p.2.2)])⟩

/-- Left merge `df.merge(metros[["metro_full","lat","lng"]], how="left",
left_on="city_full", right_on="metro_full")` followed by
`df.drop(columns=["metro_full"])`: each row of `df` is paired with every
metro row whose (normalized) `metro_full` equals its `city_full`; rows
without a match get NaN coordinates. -/
def leftMerge (df m : Frame) : Frame :=
  ⟨df.cols ++ [latC, lngC],
   df.rows.flatMap (fun r =>
     let hits := m.rows.filter (fun mr => decide (rowGet mr metroFullC = rowGet r cityFullC))
     if hits.isEmpty then [r ++ [(latC, Val.na), (lngC, Val.na)]]
     else hits.map (fun mr =>
       r ++ [(latC, (rowGet mr latC).getD Val.na), (lngC, (rowGet mr lngC).getD Val.na)]))⟩

/-- The function `clean_and_merge`.  The Python global `metros` is made
an explicit argument `metrosArg`; the shipped pipeline always passes the
`metros` table above.  Control flow follows the source: skip everything
when `city_full` is absent; otherwise normalize and alias the city
column; skip the merge when `lat` and `lng` are already present, or when
the metro table lacks `metro_full`, `lat` or `lng`; otherwise normalize
the metro table's city field and left-join. -/
def clean_and_merge (metrosArg df : Frame) : Frame :=
  if cityFullC ∈ df.cols then
    if latC ∈ df.cols ∧ lngC ∈ df.cols then applyMappingF (normalizeCityF df)
    else if metroFullC ∈ metrosArg.cols ∧ latC ∈ metrosArg.cols ∧ lngC ∈ metrosArg.cols then
      leftMerge (applyMappingF (normalizeCityF df))
        (mapCol metrosArg metroFullC normalize_city_val)
    else applyMappingF (normalizeCityF df)
  else df

/-- Duplicate key of a row: its values on every column except the
temporal columns `date` and `year`
(`df.columns.difference(["date", "year"])`). -/
def dupKey (cols : List CName) (r : Row) : List (Option Val) :=
  (cols.filter (fun c => !(decide (c = dateC)) && !(decide (c = yearC)))).map (fun c => rowGet r c)

/-- The function `drop_duplicates`:
`df.drop_duplicates(subset=df.columns.difference(["date","year"]), keep=False)`.
With `keep=False` a row survives iff its duplicate key occurs exactly
once in the table. -/
def drop_duplicates (df : Frame) : Frame :=
  ⟨df.cols,
   df.rows.filter (fun r =>
     df.rows.countP (fun r2 => decide (dupKey df.cols r2 = dupKey df.cols r)) == 1)⟩

/-- The boolean mask `df["median_list_price"] <= 19_000_000` on one row:
true exactly for a present numeric price at most the threshold (a NaN
comparison is false in pandas). -/
def priceLe (r : Row) : Bool :=
  match rowGet r mlpC with
  | some (Val.num q) => decide (q ≤ 19000000)
  | _ => false

/-- The function `remove_outliers`: a no-op when `median_list_price` is
absent, otherwise keep the rows passing the threshold mask. -/
def remove_outliers (df : Frame) : Frame :=
  if mlpC ∈ df.cols then ⟨df.cols, df.rows.filter priceLe⟩ else df

/-- Domain predicate: every row's `median_list_price` cell is present
and either numeric or NaN (a string price would make the Python
comparison raise, which is outside the modelled behaviour). -/
def priceTyped (df : Frame) : Bool :=
  df.rows.all (fun r =>
    match rowGet r mlpC with
    | some (Val.num _) => true
    | some Val.na => true
    | _ => false)

/-- File name `f"{split}.csv"` looked up under the raw directory. -/
def csvName (split : CName) : CName := split ++ (".csv").data

/-- The function `preprocess_split`, with the file system abstracted as
a partial map from file name to frame.  `pd.read_csv` raising on a
missing or unreadable file is the `Except.error` case; otherwise the
three cleaning steps run and the cleaned frame (also written out in the
source) is returned. -/
def preprocess_split (files : CName → Option Frame) (split : CName) : Except CName Frame :=
  match files (csvName split) with
  | none => Except.error split
  | some df => Except.ok (remove_outliers (drop_duplicates (clean_and_merge metros df)))

/-- The function `run_preprocess`: a plain `for` loop over the splits
with no exception handling, so the first failing split aborts the whole
loop.  On success it returns each split's cleaned frame. -/
def run_preprocess (files : CName → Option Frame) : List CName → Except CName (List (CName × Frame))
  | [] => Except.ok []
  | s :: rest =>
    match preprocess_split files s with
    | Except.error e => Except.error e
    | Except.ok f =>
      match run_preprocess files rest with
      | Except.error e => Except.error e
      | Except.ok out => Except.ok ((s, f) :: out)

/-- Parameter names of `def preprocess_split(split, raw_dir, processed_dir)`
as declared in the source. -/
def preprocess_split_params : List CName :=
  [("split").data, ("raw_dir").data, ("processed_dir").data]

/-- Parameter names of `def run_preprocess(splits, raw_dir, processed_dir)`
as declared in the source. -/
def run_preprocess_params : List CName :=
  [("splits").data, ("raw_dir").data, ("processed_dir").data]

/-- Test fixture: one record with city `"Denver-Aurora-Lakewood"` and no
coordinate columns. -/
def denverDf : Frame :=
  ⟨[cityFullC], [[(cityFullC, Val.str ("Denver-Aurora-Lakewood").data)]]⟩

/-- Expected enrichment result for `denverDf`. -/
def denverExpected : Frame :=
  ⟨[cityFullC, latC, lngC],
   [[(cityFullC, Val.str ("denver-aurora-centennial").data),
     (latC, Val.num (mkRat 397392 10000)), (lngC, Val.num (mkRat (-1049903) 10000))]]⟩

/-- Test fixture for duplicate removal: two rows identical except for
`year` 2020 vs 2021. -/
def dupYearDf : Frame :=
  ⟨[cityFullC, mlpC, yearC],
   [[(cityFullC, Val.str ("pittsburgh").data), (mlpC, Val.num 100000), (yearC, Val.num 2020)],
    [(cityFullC, Val.str ("pittsburgh").data), (mlpC, Val.num 100000), (yearC, Val.num 2021)]]⟩

/-- Test fixture for the outlier filter: prices at, just above the
threshold, and missing. -/
def outlierDf : Frame :=
  ⟨[cityFullC, mlpC],
   [[(cityFullC, Val.str ("a").data), (mlpC, Val.num 19000000)],
    [(cityFullC, Val.str ("b").data), (mlpC, Val.num 19000001)],
    [(cityFullC, Val.str ("c").data), (mlpC, Val.na)]]⟩

/-- Row of `outlierDf` priced exactly at the threshold. -/
def rowAtThreshold : Row :=
  [(cityFullC, Val.str ("a").data), (mlpC, Val.num 19000000)]

/-- Row of `outlierDf` priced just above the threshold. -/
def rowAboveThreshold : Row :=
  [(cityFullC, Val.str ("b").data), (mlpC, Val.num 19000001)]

/-- Row of `outlierDf` with a missing price. -/
def rowNaPrice : Row :=
  [(cityFullC, Val.str ("c").data), (mlpC, Val.na)]

/-- Test fixture frames for the enricher-skip and coordinate-frame
claims. -/
def noCityDf : Frame :=
  ⟨[mlpC], [[(mlpC, Val.num 5)]]⟩

/-- Fixture with city and both coordinates already present. -/
def enrichedDf : Frame :=
  ⟨[cityFullC, latC, lngC],
   [[(cityFullC, Val.str ("DC_Metro").data), (latC, Val.num 1), (lngC, Val.num 2)]]⟩

/-- Fixture with a city column only. -/
def cityOnlyDf : Frame :=
  ⟨[cityFullC], [[(cityFullC, Val.str ("Pittsburgh").data)]]⟩

/-- An ill-formed metro table missing the coordinate columns. -/
def badMetros : Frame :=
  ⟨[metroFullC], [[(metroFullC, Val.str ("pittsburgh").data)]]⟩

/-- A file system for the runner claims: `b.csv` exists (an empty
frame), every other file — in particular `a.csv` — is unreadable. -/
def filesOnlyB : CName → Option Frame :=
  fun n => if n = csvName (("b").data) then some ⟨[], []⟩ else none

/-! Character-level facts about the normalization primitives. -/

theorem isPySpace_cases {c : Char} (h : isPySpace c = true) :
    c = ' ' ∨ c = '\t' ∨ c = '\n' ∨ c = '\r' ∨ c = '\x0b' ∨ c = '\x0c' := by
  simp [isPySpace, Bool.or_eq_true, beq_iff_eq] at h
  tauto

theorem isDash_cases {c : Char} (h : isDash c = true) :
    c = '–' ∨ c = '—' ∨ c = '-' := by
  simp [isDash, Bool.or_eq_true, beq_iff_eq] at h
  tauto

theorem upperLowerTable_fact :
    ∀ p ∈ upperLowerTable, isPySpace p.1 = false ∧ isPySpace p.2 = false ∧
      lowerChar p.2 = p.2 ∧ isDash p.1 = false := by
  decide

theorem lowerChar_eq_of_find_none {c : Char}
    (h : upperLowerTable.find? (fun p => decide (p.1 = c)) = none) : lowerChar c = c := by
  simp [lowerChar, h]

theorem lowerChar_eq_of_find_some {c : Char} {p : Char × Char}
    (h : upperLowerTable.find? (fun p => decide (p.1 = c)) = some p) : lowerChar c = p.2 := by
  simp [lowerChar, h]

theorem lowerChar_idem (c : Char) : lowerChar (lowerChar c) = lowerChar c := by
  match h : upperLowerTable.find? (fun p => decide (p.1 = c)) with
  | none => rw [lowerChar_eq_of_find_none h, lowerChar_eq_of_find_none h]
  | some p =>
    rw [lowerChar_eq_of_find_some h]
    exact (upperLowerTable_fact p (List.mem_of_find?_eq_some h)).2.2.1

theorem isPySpace_lowerChar (c : Char) : isPySpace (lowerChar c) = isPySpace c := by
  match h : upperLowerTable.find? (fun p => decide (p.1 = c)) with
  | none => rw [lowerChar_eq_of_find_none h]
  | some p =>
    have hm := upperLowerTable_fact p (List.mem_of_find?_eq_some h)
    have hpc := List.find?_some h
    simp only [decide_eq_true_eq] at hpc
    rw [lowerChar_eq_of_find_some h, hm.2.1, ← hpc, hm.1]

theorem isPySpace_norm_char {c : Char} (h : isPySpace c = false) :
    isPySpace (unifyDash (lowerChar c)) = false := by
  unfold unifyDash
  split
  · decide
  · rw [isPySpace_lowerChar, h]

theorem norm_char_of_ws {c : Char} (h : isPySpace c = true) :
    unifyDash (lowerChar c) = c := by
  rcases isPySpace_cases h with rfl | rfl | rfl | rfl | rfl | rfl <;> decide

theorem lowerChar_norm_char (c : Char) :
    lowerChar (unifyDash (lowerChar c)) = unifyDash (lowerChar c) := by
  unfold unifyDash
  split
  · decide
  · exact lowerChar_idem c

theorem isDash_norm_char {c : Char} (h : isDash (unifyDash (lowerChar c)) = true) :
    unifyDash (lowerChar c) = '-' := by
  unfold unifyDash at h ⊢
  split
  · rfl
  · rename_i hnd
    exact absurd h (by simp [hnd])

theorem norm_char_of_dash {c : Char} (h : isDash c = true) :
    unifyDash (lowerChar c) = '-' := by
  rcases isDash_cases h with rfl | rfl | rfl <;> decide

/-! Facts about `List.dropWhile` used for `pyStrip`. -/

theorem dropWhile_append_of_nil {p : Char → Bool} {xs ys : List Char}
    (h : List.dropWhile p xs = []) :
    List.dropWhile p (xs ++ ys) = List.dropWhile p ys := by
  rw [List.dropWhile_append]
  simp [h]

theorem dropWhile_append_of_ne_nil {p : Char → Bool} {xs ys : List Char}
    (h : List.dropWhile p xs ≠ []) :
    List.dropWhile p (xs ++ ys) = List.dropWhile p xs ++ ys := by
  rw [List.dropWhile_append]
  simp [List.isEmpty_iff, h]

theorem dropWhile_head_not {p : Char → Bool} {l : List Char} {x : Char}
    (h : (List.dropWhile p l).head? = some x) : p x = false := by
  have := List.head?_dropWhile_not p l
  rw [h] at this
  exact this

theorem dropWhile_eq_self_of_head {p : Char → Bool} {l : List Char}
    (h : (l.head?.all fun c => !(p c)) = true) : List.dropWhile p l = l := by
  cases l with
  | nil => rfl
  | cons a l =>
    have ha : p a = false := by simpa using h
    simp [List.dropWhile_cons, ha]

theorem dropWhile_getLast?_of_ne_nil {p : Char → Bool} {l : List Char}
    (h : List.dropWhile p l ≠ []) : (List.dropWhile p l).getLast? = l.getLast? := by
  induction l with
  | nil => simp at h
  | cons a l ih =>
    by_cases ha : p a
    · rw [List.dropWhile_cons_of_pos ha] at h ⊢
      cases l with
      | nil => simp at h
      | cons b l => rw [ih h, List.getLast?_cons_cons]
    · rw [List.dropWhile_cons_of_neg ha]

/-! Facts about `collapseWs`. -/

theorem collapseWs_ne_nil {m : List Char} (h : m ≠ []) : collapseWs m ≠ [] := by
  induction m with
  | nil => exact absurd rfl h
  | cons c m ih =>
    cases m with
    | nil =>
      unfold collapseWs
      split <;> simp
    | cons d rest =>
      unfold collapseWs
      by_cases hc : isPySpace c <;> by_cases hd : isPySpace d <;>
        simp [hc, hd]
      all_goals exact ih (by simp)

theorem collapseWs_head {d : Char} {r : List Char} (hd : isPySpace d = false) :
    (collapseWs (d :: r)).head? = some d := by
  cases r with
  | nil => simp [collapseWs, hd]
  | cons e r => simp [collapseWs, hd]

theorem collapseWs_cons_cons_ws {c : Char} {y : List Char} (hc : isPySpace c = true) :
    collapseWs (c :: c :: y) = collapseWs (c :: y) := by
  simp [collapseWs, hc]

theorem collapseWs_dup_ws {c : Char} (hc : isPySpace c = true) :
    ∀ x y : List Char, collapseWs (x ++ c :: y) = collapseWs (x ++ c :: c :: y) := by
  intro x
  induction x with
  | nil => exact fun y => (collapseWs_cons_cons_ws hc).symm
  | cons a x ih =>
    intro y
    cases x with
    | nil =>
      show collapseWs (a :: c :: y) = collapseWs (a :: c :: c :: y)
      by_cases ha : isPySpace a = true
      · simp [collapseWs, ha, hc, collapseWs_cons_cons_ws hc]
      · simp [collapseWs, ha, hc, collapseWs_cons_cons_ws hc]
    | cons b x' =>
      have ih' := ih y
      simp only [List.cons_append] at ih' ⊢
      simp only [collapseWs]
      rw [ih']

theorem collapseWs_mem {m : List Char} :
    ∀ x ∈ collapseWs m, x = ' ' ∨ (x ∈ m ∧ isPySpace x = false) := by
  induction m with
  | nil => simp [collapseWs]
  | cons c m ih =>
    have step : ∀ x ∈ collapseWs m, x = ' ' ∨ (x ∈ c :: m ∧ isPySpace x = false) := by
      intro x hx
      rcases ih x hx with h | h
      · exact Or.inl h
      · exact Or.inr ⟨List.mem_cons_of_mem _ h.1, h.2⟩
    intro x hx
    cases m with
    | nil =>
      by_cases hc : isPySpace c = true
      · rw [show collapseWs [c] = [' '] from by simp [collapseWs, hc]] at hx
        exact Or.inl (by simpa using hx)
      · rw [show collapseWs [c] = [c] from by simp [collapseWs, hc]] at hx
        have : x = c := by simpa using hx
        subst this
        exact Or.inr ⟨List.mem_cons_self _ _, by simpa using hc⟩
    | cons d rest =>
      by_cases hc : isPySpace c = true <;> by_cases hd : isPySpace d = true
      · rw [show collapseWs (c :: d :: rest) = collapseWs (d :: rest) from by
          simp [collapseWs, hc, hd]] at hx
        exact step x hx
      · rw [show collapseWs (c :: d :: rest) = ' ' :: collapseWs (d :: rest) from by
          simp [collapseWs, hc, hd]] at hx
        rcases List.mem_cons.mp hx with rfl | hx
        · exact Or.inl rfl
        · exact step x hx
      · rw [show collapseWs (c :: d :: rest) = c :: collapseWs (d :: rest) from by
          simp [collapseWs, hc]] at hx
        rcases List.mem_cons.mp hx with rfl | hx
        · exact Or.inr ⟨List.mem_cons_self _ _, by simpa using hc⟩
        · exact step x hx
      · rw [show collapseWs (c :: d :: rest) = c :: collapseWs (d :: rest) from by
          simp [collapseWs, hc]] at hx
        rcases List.mem_cons.mp hx with rfl | hx
        · exact Or.inr ⟨List.mem_cons_self _ _, by simpa using hc⟩
        · exact step x hx

theorem noAdjWs_cons {a : Char} {m : List Char}
    (hm : noAdjWs m = true)
    (h : ∀ b, m.head? = some b → (isPySpace a && isPySpace b) = false) :
    noAdjWs (a :: m) = true := by
  cases m with
  | nil => rfl
  | cons b r =>
    have hb := h b rfl
    show (!(isPySpace a && isPySpace b) && noAdjWs (b :: r)) = true
    rw [hb, hm]
    rfl

theorem collapseWs_noAdj (m : List Char) : noAdjWs (collapseWs m) = true := by
  induction m with
  | nil => rfl
  | cons c m ih =>
    cases m with
    | nil =>
      unfold collapseWs
      split <;> rfl
    | cons d rest =>
      by_cases hc : isPySpace c = true <;> by_cases hd : isPySpace d = true
      · rw [show collapseWs (c :: d :: rest) = collapseWs (d :: rest) from by
          simp [collapseWs, hc, hd]]
        exact ih
      · have hd' : isPySpace d = false := by simpa using hd
        rw [show collapseWs (c :: d :: rest) = ' ' :: collapseWs (d :: rest) from by
          simp [collapseWs, hc, hd']]
        refine noAdjWs_cons ih ?_
        intro b hb
        rw [collapseWs_head hd'] at hb
        cases hb
        simp [hd']
      · have hc' : isPySpace c = false := by simpa using hc
        rw [show collapseWs (c :: d :: rest) = c :: collapseWs (d :: rest) from by
          simp [collapseWs, hc']]
        refine noAdjWs_cons ih ?_
        intro b hb
        simp [hc']
      · have hc' : isPySpace c = false := by simpa using hc
        rw [show collapseWs (c :: d :: rest) = c :: collapseWs (d :: rest) from by
          simp [collapseWs, hc']]
        refine noAdjWs_cons ih ?_
        intro b hb
        simp [hc']

theorem getLast?_cons_of_ne_nil {x : Char} {O : List Char} (h : O ≠ []) :
    (x :: O).getLast? = O.getLast? := by
  cases O with
  | nil => exact absurd rfl h
  | cons o O' => exact List.getLast?_cons_cons

theorem collapseWs_head_all {m : List Char}
    (h : (m.head?.all fun c => !(isPySpace c)) = true) :
    ((collapseWs m).head?.all fun c => !(isPySpace c)) = true := by
  cases m with
  | nil => rfl
  | cons c m =>
    have hc : isPySpace c = false := by simpa using h
    rw [collapseWs_head hc]
    simpa using hc

theorem collapseWs_getLast_all {m : List Char}
    (h : (m.getLast?.all fun c => !(isPySpace c)) = true) :
    ((collapseWs m).getLast?.all fun c => !(isPySpace c)) = true := by
  induction m with
  | nil => rfl
  | cons c m ih =>
    cases m with
    | nil =>
      have hc : isPySpace c = false := by simpa using h
      rw [show collapseWs [c] = [c] from by simp [collapseWs, hc]]
      exact h
    | cons d rest =>
      have h' : ((d :: rest).getLast?.all fun c => !(isPySpace c)) = true := by
        rwa [List.getLast?_cons_cons] at h
      have hO := ih h'
      have hne : collapseWs (d :: rest) ≠ [] := collapseWs_ne_nil (by simp)
      by_cases hc : isPySpace c = true <;> by_cases hd : isPySpace d = true
      · rw [show collapseWs (c :: d :: rest) = collapseWs (d :: rest) from by
          simp [collapseWs, hc, hd]]
        exact hO
      · have hd' : isPySpace d = false := by simpa using hd
        rw [show collapseWs (c :: d :: rest) = ' ' :: collapseWs (d :: rest) from by
          simp [collapseWs, hc, hd']]
        rwa [getLast?_cons_of_ne_nil hne]
      · have hc' : isPySpace c = false := by simpa using hc
        rw [show collapseWs (c :: d :: rest) = c :: collapseWs (d :: rest) from by
          simp [collapseWs, hc']]
        rwa [getLast?_cons_of_ne_nil hne]
      · have hc' : isPySpace c = false := by simpa using hc
        rw [show collapseWs (c :: d :: rest) = c :: collapseWs (d :: rest) from by
          simp [collapseWs, hc']]
        rwa [getLast?_cons_of_ne_nil hne]

theorem collapseWs_eq_self {m : List Char}
    (hws : ∀ c ∈ m, isPySpace c = true → c = ' ')
    (hadj : noAdjWs m = true) : collapseWs m = m := by
  induction m with
  | nil => rfl
  | cons c m ih =>
    cases m with
    | nil =>
      by_cases hc : isPySpace c = true
      · rw [show collapseWs [c] = [' '] from by simp [collapseWs, hc],
          hws c (List.mem_cons_self _ _) hc]
      · simp [collapseWs, hc]
    | cons d rest =>
      have hws' : ∀ x ∈ d :: rest, isPySpace x = true → x = ' ' :=
        fun x hx => hws x (List.mem_cons_of_mem _ hx)
      have hadj' : noAdjWs (d :: rest) = true := by
        have : (!(isPySpace c && isPySpace d) && noAdjWs (d :: rest)) = true := hadj
        exact (Bool.and_eq_true_iff.mp this).2
      by_cases hc : isPySpace c = true <;> by_cases hd : isPySpace d = true
      · exfalso
        have : (!(isPySpace c && isPySpace d) && noAdjWs (d :: rest)) = true := hadj
        rw [hc, hd] at this
        simp at this
      · have hd' : isPySpace d = false := by simpa using hd
        rw [show collapseWs (c :: d :: rest) = ' ' :: collapseWs (d :: rest) from by
          simp [collapseWs, hc, hd'], ih hws' hadj', hws c (List.mem_cons_self _ _) hc]
      · have hc' : isPySpace c = false := by simpa using hc
        rw [show collapseWs (c :: d :: rest) = c :: collapseWs (d :: rest) from by
          simp [collapseWs, hc'], ih hws' hadj']
      · have hc' : isPySpace c = false := by simpa using hc
        rw [show collapseWs (c :: d :: rest) = c :: collapseWs (d :: rest) from by
          simp [collapseWs, hc'], ih hws' hadj']

/-! Facts about `pyStrip`. -/

theorem pyStrip_head_all (l : List Char) :
    ((pyStrip l).head?.all fun c => !(isPySpace c)) = true := by
  unfold pyStrip
  cases h : (List.dropWhile isPySpace ((List.dropWhile isPySpace l.reverse).reverse)).head? with
  | none => simp [h]
  | some x => simp [h, dropWhile_head_not h]

theorem pyStrip_getLast_all (l : List Char) :
    ((pyStrip l).getLast?.all fun c => !(isPySpace c)) = true := by
  unfold pyStrip
  by_cases hn :
      List.dropWhile isPySpace ((List.dropWhile isPySpace l.reverse).reverse) = []
  · simp [hn]
  · rw [dropWhile_getLast?_of_ne_nil hn, List.getLast?_reverse]
    cases h : (List.dropWhile isPySpace l.reverse).head? with
    | none => simp [h]
    | some x => simp [h, dropWhile_head_not h]

theorem pyStrip_eq_self {m : List Char}
    (h1 : (m.head?.all fun c => !(isPySpace c)) = true)
    (h2 : (m.getLast?.all fun c => !(isPySpace c)) = true) : pyStrip m = m := by
  unfold pyStrip
  have hr : List.dropWhile isPySpace m.reverse = m.reverse := by
    apply dropWhile_eq_self_of_head
    rwa [List.head?_reverse]
  rw [hr, List.reverse_reverse]
  exact dropWhile_eq_self_of_head h1

theorem pyStrip_mid {u v : List Char} {c : Char} (hc : isPySpace c = false) :
    pyStrip (u ++ c :: v) =
      List.dropWhile isPySpace u ++ c :: (List.dropWhile isPySpace v.reverse).reverse := by
  unfold pyStrip
  have hrev : (u ++ c :: v).reverse = v.reverse ++ c :: u.reverse := by
    simp
  rw [hrev]
  have step1 : List.dropWhile isPySpace (v.reverse ++ c :: u.reverse) =
      List.dropWhile isPySpace v.reverse ++ c :: u.reverse := by
    by_cases h : List.dropWhile isPySpace v.reverse = []
    · rw [dropWhile_append_of_nil h, h, List.dropWhile_cons_of_neg (by simp [hc])]
      simp
    · rw [dropWhile_append_of_ne_nil h]
  rw [step1]
  have step2 : (List.dropWhile isPySpace v.reverse ++ c :: u.reverse).reverse =
      u ++ c :: (List.dropWhile isPySpace v.reverse).reverse := by
    simp
  rw [step2]
  by_cases h : List.dropWhile isPySpace u = []
  · rw [dropWhile_append_of_nil h, h, List.dropWhile_cons_of_neg (by simp [hc])]
    simp
  · rw [dropWhile_append_of_ne_nil h]

/-! Facts about `normCore`. -/

theorem map_id_of {f : Char → Char} {l : List Char} (h : ∀ a ∈ l, f a = a) :
    l.map f = l := by
  induction l with
  | nil => rfl
  | cons a l ih =>
    rw [List.map_cons, h a (List.mem_cons_self _ _),
      ih (fun b hb => h b (List.mem_cons_of_mem _ hb))]

theorem normCore_congr_mid {u v : List Char} {c d : Char}
    (hc : isPySpace c = false) (hd : isPySpace d = false)
    (h : unifyDash (lowerChar c) = unifyDash (lowerChar d)) :
    normCore (u ++ c :: v) = normCore (u ++ d :: v) := by
  unfold normCore
  rw [pyStrip_mid hc, pyStrip_mid hd]
  simp only [List.map_append, List.map_cons]
  rw [h]

theorem normCore_wsdup {u v : List Char} {c : Char} (hc : isPySpace c = true) :
    normCore (u ++ c :: v) = normCore (u ++ c :: c :: v) := by
  unfold normCore pyStrip
  have h1 : (u ++ c :: v).reverse = v.reverse ++ c :: u.reverse := by simp
  have h2 : (u ++ c :: c :: v).reverse = v.reverse ++ c :: c :: u.reverse := by simp
  rw [h1, h2]
  by_cases hv : List.dropWhile isPySpace v.reverse = []
  · rw [dropWhile_append_of_nil hv, dropWhile_append_of_nil hv]
    simp [hc]
  · rw [dropWhile_append_of_ne_nil hv, dropWhile_append_of_ne_nil hv]
    have r1 : (List.dropWhile isPySpace v.reverse ++ c :: u.reverse).reverse =
        u ++ c :: (List.dropWhile isPySpace v.reverse).reverse := by simp
    have r2 : (List.dropWhile isPySpace v.reverse ++ c :: c :: u.reverse).reverse =
        u ++ c :: c :: (List.dropWhile isPySpace v.reverse).reverse := by simp
    rw [r1, r2]
    by_cases hu : List.dropWhile isPySpace u = []
    · rw [dropWhile_append_of_nil hu, dropWhile_append_of_nil hu]
      simp [hc]
    · rw [dropWhile_append_of_ne_nil hu, dropWhile_append_of_ne_nil hu]
      simp only [List.map_append, List.map_cons]
      rw [norm_char_of_ws hc]
      exact collapseWs_dup_ws hc _ _

theorem normCore_shape (l : List Char) : normalizedShape (normCore l) = true := by
  unfold normalizedShape
  simp only [Bool.and_eq_true]
  refine ⟨⟨⟨?_, ?_⟩, ?_⟩, ?_⟩
  · rw [List.all_eq_true]
    intro x hx
    rcases collapseWs_mem x hx with rfl | ⟨hmem, hws⟩
    · decide
    · rcases List.mem_map.mp hmem with ⟨y, hy, rfl⟩
      rcases List.mem_map.mp hy with ⟨z, _, rfl⟩
      simp only [Bool.and_eq_true, beq_iff_eq]
      refine ⟨⟨lowerChar_norm_char z, ?_⟩, ?_⟩
      · by_cases hdz : isDash (unifyDash (lowerChar z)) = true
        · simp [isDash_norm_char hdz]
        · simp [hdz]
      · simp [hws]
  · exact collapseWs_noAdj _
  · apply collapseWs_head_all
    rw [List.head?_map, List.head?_map]
    cases h : (pyStrip l).head? with
    | none => rfl
    | some x =>
      have hx : isPySpace x = false := by
        have hh := pyStrip_head_all l
        rw [h] at hh
        simpa using hh
      simpa using isPySpace_norm_char hx
  · apply collapseWs_getLast_all
    rw [List.getLast?_map, List.getLast?_map]
    cases h : (pyStrip l).getLast? with
    | none => rfl
    | some x =>
      have hx : isPySpace x = false := by
        have hh := pyStrip_getLast_all l
        rw [h] at hh
        simpa using hh
      simpa using isPySpace_norm_char hx

theorem normCore_eq_self {m : List Char} (h : normalizedShape m = true) :
    normCore m = m := by
  unfold normalizedShape at h
  simp only [Bool.and_eq_true] at h
  obtain ⟨⟨⟨hall, hadj⟩, hhead⟩, hlast⟩ := h
  rw [List.all_eq_true] at hall
  have h1 : ∀ c ∈ m, lowerChar c = c := by
    intro c hcm
    have hc := hall c hcm
    simp only [Bool.and_eq_true, beq_iff_eq] at hc
    exact hc.1.1
  have h2 : ∀ c ∈ m, isDash c = true → c = '-' := by
    intro c hcm hdc
    have hc := hall c hcm
    simp only [Bool.and_eq_true, Bool.or_eq_true, Bool.not_eq_true', beq_iff_eq] at hc
    rcases hc.1.2 with hf | he
    · rw [hdc] at hf
      cases hf
    · exact he
  have h3 : ∀ c ∈ m, isPySpace c = true → c = ' ' := by
    intro c hcm hwc
    have hc := hall c hcm
    simp only [Bool.and_eq_true, Bool.or_eq_true, Bool.not_eq_true', beq_iff_eq] at hc
    rcases hc.2 with hf | he
    · rw [hwc] at hf
      cases hf
    · exact he
  have h2' : ∀ c ∈ m, unifyDash c = c := by
    intro c hcm
    unfold unifyDash
    split
    · rename_i hdc
      exact (h2 c hcm hdc).symm
    · rfl
  unfold normCore
  rw [pyStrip_eq_self hhead hlast, map_id_of h1, map_id_of h2']
  exact collapseWs_eq_self h3 hadj

theorem isPySpace_of_isDash {c : Char} (h : isDash c = true) : isPySpace c = false := by
  rcases isDash_cases h with rfl | rfl | rfl <;> decide

/-- C1: for every pair of input strings that differ only in whitespace
run-length, in which dash character is used (hyphen, en dash, em dash),
or in letter case, `normalize_city` returns the same output string; and
that output is lowercase, trimmed, with all dash variants replaced by
`-` and every run of whitespace collapsed to a single space. -/
theorem C1_normalize_invariant_and_shape :
    (∀ s t : List Char, Relation.EqvGen CityDiffStep s t → normCore s = normCore t) ∧
    (∀ s : List Char, normalizedShape (normCore s) = true) := by
  constructor
  · intro s t h
    induction h with
    | rel a b hab =>
      cases hab with
      | dash u v c d hc hd =>
        exact normCore_congr_mid (isPySpace_of_isDash hc) (isPySpace_of_isDash hd)
          (by rw [norm_char_of_dash hc, norm_char_of_dash hd])
      | caseChange u v c d hc hd h => exact normCore_congr_mid hc hd (by rw [h])
      | wsRun u v c hc => exact normCore_wsdup hc
    | refl a => rfl
    | symm a b _ ih => exact ih.symm
    | trans a b c _ _ ih1 ih2 => exact ih1.trans ih2
  · exact normCore_shape

/-- Witness for C1 at concrete inputs: `"New–York  CITY"` and
`"New—york CITY"` differ in one dash character, one whitespace
run-length, and one letter case, and normalize identically. -/
theorem C1_normalize_invariant_witness :
    Relation.EqvGen CityDiffStep (("New–York  CITY").data) (("New—york CITY").data) ∧
    normCore (("New–York  CITY").data) = normCore (("New—york CITY").data) :=
  have h1 : Relation.EqvGen CityDiffStep (("New–York  CITY").data) (("New—York  CITY").data) :=
    Relation.EqvGen.rel _ _
      (CityDiffStep.dash (("New").data) (("York  CITY").data) '–' '—' (by decide) (by decide))
  have h2 : Relation.EqvGen CityDiffStep (("New—York  CITY").data) (("New—york  CITY").data) :=
    Relation.EqvGen.rel _ _
      (CityDiffStep.caseChange (("New—").data) (("ork  CITY").data) 'Y' 'y'
        (by decide) (by decide) (by decide))
  have h3 : Relation.EqvGen CityDiffStep (("New—york CITY").data) (("New—york  CITY").data) :=
    Relation.EqvGen.rel _ _
      (CityDiffStep.wsRun (("New—york").data) (("CITY").data) ' ' (by decide))
  have h : Relation.EqvGen CityDiffStep (("New–York  CITY").data) (("New—york CITY").data) :=
    Relation.EqvGen.trans _ _ _ (Relation.EqvGen.trans _ _ _ h1 h2)
      (Relation.EqvGen.symm _ _ h3)
  ⟨h, C1_normalize_invariant_and_shape.1 _ _ h⟩

theorem norm_mapping_canonical : ∀ p ∈ norm_mapping, normCore p.2 = p.2 ∧
    norm_mapping.find? (fun q => decide (q.1 = p.2)) = none := by decide

/-- C2: normalization followed by alias resolution is idempotent:
applying it to a value of the (normalized) alias table, or to any
already-normalized unmapped string, returns it unchanged, and applying
the whole normalize-and-alias step twice equals applying it once. -/
theorem C2_normalize_alias_idempotent :
    (∀ s : List Char, normAndAlias (normAndAlias s) = normAndAlias s) ∧
    (∀ p ∈ norm_mapping, normAndAlias p.2 = p.2) ∧
    (∀ s : List Char, normalizedShape s = true →
      norm_mapping.find? (fun q => decide (q.1 = s)) = none → normAndAlias s = s) := by
  have hval : ∀ p ∈ norm_mapping, normAndAlias p.2 = p.2 := by
    intro p hp
    have h := norm_mapping_canonical p hp
    unfold normAndAlias
    rw [h.1]
    simp [applyAlias, h.2]
  refine ⟨?_, hval, ?_⟩
  · intro s
    cases hf : norm_mapping.find? (fun q => decide (q.1 = normCore s)) with
    | some p =>
      have e1 : normAndAlias s = p.2 := by
        unfold normAndAlias
        simp [applyAlias, hf]
      rw [e1]
      exact hval p (List.mem_of_find?_eq_some hf)
    | none =>
      have e1 : normAndAlias s = normCore s := by
        unfold normAndAlias
        simp [applyAlias, hf]
      rw [e1]
      unfold normAndAlias
      rw [normCore_eq_self (normCore_shape s)]
      simp [applyAlias, hf]
  · intro s hs hf
    unfold normAndAlias
    rw [normCore_eq_self hs]
    simp [applyAlias, hf]

/-- Witness for C2 at concrete inputs: the canonical value
`"denver-aurora-centennial"` of the alias table and the
already-normalized unmapped string `"foo bar"` are both fixed. -/
theorem C2_normalize_alias_witness :
    normAndAlias (("denver-aurora-centennial").data) = ("denver-aurora-centennial").data ∧
    normAndAlias (("foo bar").data) = ("foo bar").data :=
  ⟨C2_normalize_alias_idempotent.2.1
      ((("denver-aurora-lakewood").data), (("denver-aurora-centennial").data)) (by decide),
   C2_normalize_alias_idempotent.2.2 (("foo bar").data) (by decide) (by decide)⟩

/-! Frame-level lemmas. -/

theorem rowGet_rowModify_ne {r : Row} {c c' : CName} {g : Val → Val} (h : c' ≠ c) :
    rowGet (rowModify r c g) c' = rowGet r c' := by
  induction r with
  | nil => rfl
  | cons p r ih =>
    show rowGet ((if p.1 = c then (p.1, g p.2) else p) :: rowModify r c g) c' = rowGet (p :: r) c'
    by_cases hp : p.1 = c'
    · have hpc : ¬(p.1 = c) := by rw [hp]; exact h
      rw [if_neg hpc]
      unfold rowGet
      rw [List.find?_cons_of_pos _ (by simpa using hp), List.find?_cons_of_pos _ (by simpa using hp)]
    · have hfst : (if p.1 = c then (p.1, g p.2) else p).1 = p.1 := by split <;> rfl
      unfold rowGet
      rw [List.find?_cons_of_neg _ (by simp [hfst, hp]), List.find?_cons_of_neg _ (by simpa using hp)]
      exact ih

/-- C3: the enricher checks its three preconditions in order — city
column absent, both coordinate columns already present, metro table
missing required columns — and each check, when it fires, causes a
graceful skip returning the data unmodified for that step (the whole
frame for check 1; the normalized-and-aliased frame, with no merge, for
checks 2 and 3). -/
theorem C3_enricher_graceful_skips (metrosArg df : Frame) :
    (cityFullC ∉ df.cols → clean_and_merge metrosArg df = df) ∧
    (cityFullC ∈ df.cols → latC ∈ df.cols → lngC ∈ df.cols →
      clean_and_merge metrosArg df = applyMappingF (normalizeCityF df)) ∧
    (cityFullC ∈ df.cols → ¬(latC ∈ df.cols ∧ lngC ∈ df.cols) →
      ¬(metroFullC ∈ metrosArg.cols ∧ latC ∈ metrosArg.cols ∧ lngC ∈ metrosArg.cols) →
      clean_and_merge metrosArg df = applyMappingF (normalizeCityF df)) := by
  refine ⟨?_, ?_, ?_⟩
  · intro h
    unfold clean_and_merge
    rw [if_neg h]
  · intro h1 h2 h3
    unfold clean_and_merge
    rw [if_pos h1, if_pos ⟨h2, h3⟩]
  · intro h1 h2 h3
    unfold clean_and_merge
    rw [if_pos h1, if_neg h2, if_neg h3]

/-- Witness for C3 at concrete frames: a frame without a city column
passes through whole; a frame with coordinates present, and a frame
facing a metro table without coordinate columns, are returned after the
normalization step with no merge. -/
theorem C3_enricher_graceful_skips_witness :
    clean_and_merge badMetros noCityDf = noCityDf ∧
    clean_and_merge badMetros enrichedDf = applyMappingF (normalizeCityF enrichedDf) ∧
    clean_and_merge badMetros cityOnlyDf = applyMappingF (normalizeCityF cityOnlyDf) :=
  ⟨(C3_enricher_graceful_skips badMetros noCityDf).1 (by decide),
   (C3_enricher_graceful_skips badMetros enrichedDf).2.1 (by decide) (by decide) (by decide),
   (C3_enricher_graceful_skips badMetros cityOnlyDf).2.2 (by decide) (by decide) (by decide)⟩

/-- C4: for every input table in which both coordinate columns are
already present, `clean_and_merge` does not alter any coordinate value:
row for row, `lat` and `lng` in the output equal those in the input. -/
theorem C4_coordinates_preserved (metrosArg df : Frame)
    (hla : latC ∈ df.cols) (hlg : lngC ∈ df.cols) :
    (clean_and_merge metrosArg df).rows.map (fun r => rowGet r latC) =
      df.rows.map (fun r => rowGet r latC) ∧
    (clean_and_merge metrosArg df).rows.map (fun r => rowGet r lngC) =
      df.rows.map (fun r => rowGet r lngC) := by
  by_cases hc : cityFullC ∈ df.cols
  · have he : clean_and_merge metrosArg df = applyMappingF (normalizeCityF df) := by
      unfold clean_and_merge
      rw [if_pos hc, if_pos ⟨hla, hlg⟩]
    rw [he]
    unfold applyMappingF normalizeCityF mapCol
    constructor <;>
    · simp only [List.map_map]
      apply List.map_congr_left
      intro r hr
      simp only [Function.comp]
      rw [rowGet_rowModify_ne (by decide), rowGet_rowModify_ne (by decide)]
  · have he : clean_and_merge metrosArg df = df := by
      unfold clean_and_merge
      rw [if_neg hc]
    rw [he]
    exact ⟨rfl, rfl⟩

/-- Witness for C4: the already-enriched fixture keeps its coordinates
through `clean_and_merge` (against the full metro table). -/
theorem C4_coordinates_preserved_witness :
    (clean_and_merge metros enrichedDf).rows.map (fun r => rowGet r latC) =
      enrichedDf.rows.map (fun r => rowGet r latC) ∧
    (clean_and_merge metros enrichedDf).rows.map (fun r => rowGet r lngC) =
      enrichedDf.rows.map (fun r => rowGet r lngC) :=
  C4_coordinates_preserved metros enrichedDf (by decide) (by decide)

/-- C5, evaluated at the input the claim describes: `dupYearDf` holds
two rows identical except for `year` 2020 vs 2021.  Because `year` is
excluded from the duplicate key and `keep=False` drops every member of
a duplicated group, `drop_duplicates` removes BOTH rows — the code
contradicts its own docstring ("keeping different dates/years") and the
claim's retention scenario. -/
theorem C5_year_differing_rows_both_dropped :
    dupYearDf.rows.length = 2 ∧ (drop_duplicates dupYearDf).rows = [] := by
  constructor
  · rfl
  · decide

theorem remove_outliers_mem {df : Frame} (h : mlpC ∈ df.cols) (r : Row) :
    r ∈ (remove_outliers df).rows ↔
      (r ∈ df.rows ∧ ∃ q : ℚ, rowGet r mlpC = some (Val.num q) ∧ q ≤ 19000000) := by
  unfold remove_outliers
  rw [if_pos h]
  show r ∈ df.rows.filter priceLe ↔ _
  rw [List.mem_filter]
  constructor
  · rintro ⟨hr, hp⟩
    refine ⟨hr, ?_⟩
    cases hv : rowGet r mlpC with
    | none => simp [priceLe, hv] at hp
    | some v =>
      cases v with
      | na => simp [priceLe, hv] at hp
      | str s => simp [priceLe, hv] at hp
      | num q =>
        simp only [priceLe, hv, decide_eq_true_eq] at hp
        exact ⟨q, rfl, hp⟩
  · rintro ⟨hr, q, hq, hle⟩
    refine ⟨hr, ?_⟩
    simp only [priceLe, hq, decide_eq_true_eq]
    exact hle

/-- C6: `remove_outliers` keeps exactly the rows whose price is present
and does not exceed 19,000,000 (so a row at exactly 19,000,000 stays
and one at 19,000,001 goes, as the witness instantiates), and is the
identity when the `median_list_price` column is absent. -/
theorem C6_outlier_threshold (df : Frame) :
    (mlpC ∉ df.cols → remove_outliers df = df) ∧
    (mlpC ∈ df.cols → priceTyped df = true →
      ∀ r : Row, r ∈ (remove_outliers df).rows ↔
        (r ∈ df.rows ∧ ∃ q : ℚ, rowGet r mlpC = some (Val.num q) ∧ q ≤ 19000000)) := by
  constructor
  · intro h
    unfold remove_outliers
    rw [if_neg h]
  · intro h _ r
    exact remove_outliers_mem h r

/-- Witness for C6: the row priced exactly 19,000,000 is retained, the
row priced 19,000,001 is removed, and a frame without the price column
passes through unchanged. -/
theorem C6_outlier_threshold_witness :
    rowAtThreshold ∈ (remove_outliers outlierDf).rows ∧
    rowAboveThreshold ∉ (remove_outliers outlierDf).rows ∧
    remove_outliers (⟨[cityFullC], []⟩ : Frame) = (⟨[cityFullC], []⟩ : Frame) := by
  refine ⟨?_, ?_, (C6_outlier_threshold ⟨[cityFullC], []⟩).1 (by decide)⟩
  · exact ((C6_outlier_threshold outlierDf).2 (by decide) (by decide) rowAtThreshold).mpr
      ⟨by decide, 19000000, by decide, by decide⟩
  · intro hmem
    rcases ((C6_outlier_threshold outlierDf).2 (by decide) (by decide) rowAboveThreshold).mp hmem
      with ⟨_, q, hq, hle⟩
    have hq' : rowGet rowAboveThreshold mlpC = some (Val.num 19000001) := by decide
    rw [hq'] at hq
    obtain rfl : (19000001 : ℚ) = q := Val.num.inj (Option.some.inj hq)
    exact absurd hle (by decide)

/-- C7: the record with city `"Denver-Aurora-Lakewood"` and no
coordinate columns is normalized, alias-resolved to
`"denver-aurora-centennial"`, and left-joined to the Denver entry of
the metro table, yielding lat 39.7392 and lng -104.9903. -/
theorem C7_denver_end_to_end : clean_and_merge metros denverDf = denverExpected := by
  decide

/-- C8 counterexample at a concrete input: split `"b"` is perfectly
readable and processable on its own, yet when split `"a"`'s file is
unreadable `run_preprocess ["a", "b"]` aborts with the error — split
`"b"` is never processed, contradicting "only that split's processing
is aborted, and the remaining splits are still processed". -/
theorem C8_unreadable_aborts_remaining_counterexample :
    (preprocess_split filesOnlyB (("b").data)).isOk = true ∧
    run_preprocess filesOnlyB [("a").data, ("b").data] = Except.error (("a").data) :=
  ⟨rfl, rfl⟩

/-- C8 (amended): an unreadable input file aborts the entire run at
that split: the splits before it are processed, the failing split's
error propagates out of the plain `for` loop, and no later split is
processed. -/
theorem C8_unreadable_file_aborts_run (files : CName → Option Frame)
    (pre : List CName) (s : CName) (rest : List CName)
    (hpre : ∀ t ∈ pre, (preprocess_split files t).isOk = true)
    (hs : files (csvName s) = none) :
    run_preprocess files (pre ++ s :: rest) = Except.error s := by
  induction pre with
  | nil =>
    show run_preprocess files (s :: rest) = Except.error s
    unfold run_preprocess preprocess_split
    rw [hs]
  | cons t pre ih =>
    have ht := hpre t (List.mem_cons_self _ _)
    have ih' := ih (fun u hu => hpre u (List.mem_cons_of_mem _ hu))
    show run_preprocess files (t :: (pre ++ s :: rest)) = Except.error s
    cases hpt : preprocess_split files t with
    | error e =>
      rw [hpt] at ht
      cases ht
    | ok f =>
      simp only [run_preprocess, hpt, ih']

/-- Witness for the amended C8: with `b.csv` readable and `a.csv`
missing, the run over splits `["b", "a", "c"]` fails wholesale with
split `"a"`'s error. -/
theorem C8_unreadable_file_aborts_run_witness :
    run_preprocess filesOnlyB [("b").data, ("a").data, ("c").data] =
      Except.error (("a").data) :=
  C8_unreadable_file_aborts_run filesOnlyB [("b").data] (("a").data) [("c").data]
    (by
      intro t ht
      rw [List.mem_singleton] at ht
      subst ht
      decide)
    (by decide)

/-- C9: neither public entry point declares any parameter beyond the
split name(s) and the two directories — in particular no `metros_path`
override that would disable enrichment, contradicting the module
docstring that promises one. -/
theorem C9_no_metros_override_param :
    ("metros_path").data ∉ preprocess_split_params ∧
    ("metros_path").data ∉ run_preprocess_params := by
  decide

/-- C10: when the price column is present, rows whose
`median_list_price` is missing (NaN) are dropped too: the filter keeps
exactly the rows whose price is present and at most 19,000,000. -/
theorem C10_missing_prices_dropped (df : Frame) (h : mlpC ∈ df.cols)
    (_ht : priceTyped df = true) :
    (∀ r ∈ df.rows, rowGet r mlpC = some Val.na → r ∉ (remove_outliers df).rows) ∧
    (∀ r : Row, r ∈ (remove_outliers df).rows ↔
      (r ∈ df.rows ∧ ∃ q : ℚ, rowGet r mlpC = some (Val.num q) ∧ q ≤ 19000000)) := by
  refine ⟨?_, fun r => remove_outliers_mem h r⟩
  intro r _ hna hmem
  rcases (remove_outliers_mem h r).mp hmem with ⟨_, q, hq, _⟩
  rw [hna] at hq
  cases Option.some.inj hq

/-- Witness for C10: the NaN-priced row of `outlierDf` is dropped. -/
theorem C10_missing_prices_dropped_witness :
    rowNaPrice ∉ (remove_outliers outlierDf).rows :=
  (C10_missing_prices_dropped outlierDf (by decide) (by decide)).1
    rowNaPrice (by decide) (by decide)
